import Mathlib

/-!
Shallow embedding of the core logic of the `claude-k2-installer` repository,
together with theorems settling the specification claims.

Embedded source regions:
* `internal/activation/activation.go` — activation-code validator (`Validate`)
  and the dynamic code generator (`generateValidCodeDynamic`,
  `GetSampleActivationCodes`), with `crypto/rand` modelled by an oracle
  `rnd : Nat → Nat` consumed at successive indices.
* the provisioning pipeline `Installer.Install` (weighted steps, tolerant
  `allowFailure` flag, progress events on a channel), with the action
  outcome of each step supplied as data.
* `Installer.configureK2APIWithOptions` — request-delay computation,
  Windows `setx` writes, disposable environment scripts, POSIX shell
  rc-file marker append, and the `.claude.json` read-merge-write.
* the mirror-fallback download loops of `installNodeJSWindows` /
  `installGitWindows` in `internal/installer/installer.go`.

Go machine integers are modelled as `Int`/`Nat`, Go `float64` progress
arithmetic as `ℚ` (exact arithmetic; the floating-point tolerance of the
spec is therefore 0), Go panics (integer division by zero, out-of-range string
slicing) as `Option.none`, and byte positions of `range` over strings via
UTF-8 sizes.
-/

namespace K2

/-! ## Go string primitives -/

/-- Size in bytes of the UTF-8 encoding of a character
(Go `range` over a string advances by this amount). -/
def utf8Len (c : Char) : Nat :=
  if c.toNat < 0x80 then 1
  else if c.toNat < 0x800 then 2
  else if c.toNat < 0x10000 then 3
  else 4

/-- Byte length of a string (Go `len(s)`). -/
def goLen (s : String) : Nat :=
  s.data.foldl (fun a c => a + utf8Len c) 0

/-- The first byte of a string, as Go `s[0]` reads it: for an ASCII leading
character this is its code point, otherwise the UTF-8 lead byte. -/
def goFirstByte (s : String) : Nat :=
  match s.data with
  | [] => 0
  | c :: _ =>
    if c.toNat < 0x80 then c.toNat
    else if c.toNat < 0x800 then 0xC0 + c.toNat / 0x40
    else if c.toNat < 0x10000 then 0xE0 + c.toNat / 0x1000
    else 0xF0 + c.toNat / 0x40000

/-- ASCII uppercasing of one character (`strings.ToUpper`, restricted to the
ASCII range exercised by activation codes). -/
def goUpperChar (c : Char) : Char :=
  if 'a' ≤ c ∧ c ≤ 'z' then Char.ofNat (c.toNat - 32) else c

/-- Go `strings.ToUpper(strings.ReplaceAll(code, " ", ""))` from `Validate`:
drop spaces, uppercase. -/
def normalizeCode (s : String) : String :=
  String.mk ((s.data.filter (fun c => c ≠ ' ')).map goUpperChar)

/-- Byte-prefix check (`strings.HasPrefix`). -/
def goStartsWith (s pre : String) : Bool :=
  pre.data.isPrefixOf s.data

/-- Does `needle` occur in `hay` (list form of `strings.Contains`)? -/
def containsB (needle : List Char) : List Char → Bool
  | [] => needle.isEmpty
  | c :: rest => needle.isPrefixOf (c :: rest) || containsB needle rest

/-- Go `strings.Contains(hay, needle)`. -/
def strContains (hay needle : String) : Bool :=
  containsB needle.data hay.data

/-- Accumulating splitter for a one-character separator. -/
def splitDashAux : List Char → List Char → List String
  | [], acc => [String.mk acc.reverse]
  | c :: cs, acc =>
    if c = '-' then String.mk acc.reverse :: splitDashAux cs []
    else splitDashAux cs (c :: acc)

/-- Go `strings.Split(s, "-")`: split at every dash, keeping empty fields. -/
def goSplitDash (s : String) : List String :=
  splitDashAux s.data []

/-- Go `strconv.Atoi`: returns the parsed value and whether parsing succeeded
(Go returns `(0, err)` on a syntax error and a clamped value with
`ErrRange` on 64-bit overflow). -/
def goAtoi (s : String) : Int × Bool :=
  match s.data with
  | [] => (0, false)
  | cs =>
    let (neg, ds) :=
      match cs with
      | '-' :: t => (true, t)
      | '+' :: t => (false, t)
      | t => (false, t)
    if ds.isEmpty then (0, false)
    else if ds.all (fun c => '0' ≤ c ∧ c ≤ '9') then
      let n : Nat := ds.foldl (fun a c => a * 10 + (c.toNat - 48)) 0
      let v : Int := if neg then -(n : Int) else (n : Int)
      if v < -(2 ^ 63) then (-(2 ^ 63), false)
      else if (2 ^ 63 - 1 : Int) < v then (2 ^ 63 - 1, false)
      else (v, true)
    else (0, false)

/-! ## Activation-code validator (`activation.Validate`) -/

/-- The weighted checksum of `Validate`: Go iterates
`for i, ch := range keyPart { checksum += int(ch) * (i+1) }`, where `i` is
the byte offset of the rune `ch`.  `ofs` is the byte offset of the head. -/
def checksumAux (ofs : Nat) : List Char → Nat
  | [] => 0
  | c :: cs => c.toNat * (ofs + 1) + checksumAux (ofs + utf8Len c) cs

/-- Checksum of a whole string (offset 0). -/
def goChecksum (s : String) : Nat := checksumAux 0 s.data

/-- Digit sum used by `Validate` and `calculateDigitSum`: the sum of the
values of the decimal digits occurring in `s`. -/
def calculateDigitSum (s : String) : Nat :=
  s.data.foldl (fun a c => if '0' ≤ c ∧ c ≤ '9' then a + (c.toNat - 48) else a) 0

/-- Function `activation.Validate` of the source: format `CK2025-XXXX-XXXX-XXXX`, weighted checksum
of the last three parts divisible by 1337, and the digit sum of part 1 equal
to the first byte of part 2 modulo 20. -/
def Validate (code : String) : Bool :=
  let code := normalizeCode code
  if !goStartsWith code "CK2025-" then false
  else
    let parts := goSplitDash code
    match parts with
    | [_, p1, p2, p3] =>
      if goLen p1 ≠ 4 || goLen p2 ≠ 4 || goLen p3 ≠ 4 then false
      else
        let keyPart := p1 ++ p2 ++ p3
        let checksum := goChecksum keyPart
        if checksum % 1337 ≠ 0 then false
        else
          let sum := calculateDigitSum p1
          if goLen p2 > 0 ∧ sum ≠ goFirstByte p2 % 20 then false
          else true
    | _ => false

/-! ## Dynamic activation-code generator (`generateValidCodeDynamic`)

`crypto/rand` is modelled by an oracle `rnd : Nat → Nat`; the `k`-th call of
`randInt max` in program order returns `rnd k % max` (a value in `[0, max)`,
as `rand.Int` guarantees).  Every function returns the next unused index
alongside its result. -/

/-- The alphabet `"ABCDEFGHIJKLMNOPQRSTUVWXYZ0123456789"`. -/
def chars36 : List Char := "ABCDEFGHIJKLMNOPQRSTUVWXYZ0123456789".data

/-- One `randInt(max)` call at oracle position `k`. -/
def randInt (rnd : Nat → Nat) (k max : Nat) : Nat := rnd k % max

/-- The fill loop of `generatePartWithDigit`: positions `0..3` in order,
placing the digit at `digitPos` and a random alphabet character elsewhere. -/
def fillPart (rnd : Nat → Nat) (digitPos : Nat) (digit : Char) :
    List Nat → Nat → List Char × Nat
  | [], k => ([], k)
  | i :: is, k =>
    if i = digitPos then
      let (rest, k') := fillPart rnd digitPos digit is k
      (digit :: rest, k')
    else
      let c := chars36.getD (randInt rnd k 36) 'A'
      let (rest, k') := fillPart rnd digitPos digit is (k + 1)
      (c :: rest, k')

/-- Function `generatePartWithDigit`: four characters with at least one decimal digit. -/
def generatePartWithDigit (rnd : Nat → Nat) (k : Nat) : String × Nat :=
  let digitPos := randInt rnd k 4
  let digit := Char.ofNat (48 + randInt rnd (k + 1) 10)
  let (cs, k') := fillPart rnd digitPos digit [0, 1, 2, 3] (k + 2)
  (String.mk cs, k')

/-- Function `generatePart2WithFirstChar`: deterministic first character with
`ch % 20 == digitSum % 20` (letters preferred, then digits, else byte 0),
followed by three random characters. -/
def generatePart2WithFirstChar (rnd : Nat → Nat) (digitSum k : Nat) :
    String × Nat :=
  let targetMod := digitSum % 20
  let fromLetters := (List.range 26).find? (fun i => (65 + i) % 20 = targetMod)
  let firstChar :=
    match fromLetters with
    | some i => Char.ofNat (65 + i)
    | none =>
      match (List.range 10).find? (fun i => (48 + i) % 20 = targetMod) with
      | some i => Char.ofNat (48 + i)
      | none => Char.ofNat 0
  let c1 := chars36.getD (randInt rnd k 36) 'A'
  let c2 := chars36.getD (randInt rnd (k + 1) 36) 'A'
  let c3 := chars36.getD (randInt rnd (k + 2) 36) 'A'
  (String.mk [firstChar, c1, c2, c3], k + 3)

/-- One attempt round of `generatePart3ToMatchChecksum`: three random
characters, then a deterministic search for a final character making the
weighted checksum divisible by 1337. -/
def part3Attempt (rnd : Nat → Nat) (part1 part2 : String) (k : Nat) :
    Option String × Nat :=
  let c0 := chars36.getD (randInt rnd k 36) 'A'
  let c1 := chars36.getD (randInt rnd (k + 1) 36) 'A'
  let c2 := chars36.getD (randInt rnd (k + 2) 36) 'A'
  let combined := part1 ++ part2 ++ String.mk [c0, c1, c2]
  let baseChecksum := goChecksum combined
  match chars36.find?
      (fun c => (baseChecksum + c.toNat * (goLen combined + 1)) % 1337 = 0) with
  | some c => (some (String.mk [c0, c1, c2, c]), k + 3)
  | none => (none, k + 3)

/-- The 100-attempt loop of `generatePart3ToMatchChecksum`; returns `""` when
every attempt fails. -/
def generatePart3ToMatchChecksum (rnd : Nat → Nat) (part1 part2 : String) :
    Nat → Nat → String × Nat
  | 0, k => ("", k)
  | fuel + 1, k =>
    match part3Attempt rnd part1 part2 k with
    | (some p3, k') => (p3, k')
    | (none, k') => generatePart3ToMatchChecksum rnd part1 part2 fuel k'

/-- The 1000-attempt loop of `generateValidCodeDynamic`: assemble a candidate
and return it only once `Validate` confirms it; `""` after the last attempt. -/
def generateAux (rnd : Nat → Nat) : Nat → Nat → String
  | 0, _ => ""
  | fuel + 1, k =>
    let g1 := generatePartWithDigit rnd k
    let g2 := generatePart2WithFirstChar rnd (calculateDigitSum g1.1) g1.2
    let g3 := generatePart3ToMatchChecksum rnd g1.1 g2.1 100 g2.2
    if g3.1 ≠ "" then
      let code := "CK2025-" ++ g1.1 ++ "-" ++ g2.1 ++ "-" ++ g3.1
      if Validate code then code else generateAux rnd fuel g3.2
    else generateAux rnd fuel g3.2

/-- Function `generateValidCodeDynamic` of the source. -/
def generateValidCodeDynamic (rnd : Nat → Nat) : String :=
  generateAux rnd 1000 0

/-- Function `GetSampleActivationCodes`: three independent generator runs, keeping the
non-empty results. -/
def getSampleActivationCodes (r1 r2 r3 : Nat → Nat) : List String :=
  [generateValidCodeDynamic r1, generateValidCodeDynamic r2,
    generateValidCodeDynamic r3].filter (fun c => c ≠ "")

/-! ## Provisioning pipeline (`Installer.Install`, activation.go 350–404)

The Go closure of a step is modelled by its outcome: `result = none` for a `nil`
error, `some e` for an error with text `e`.  Progress `float64` arithmetic is
modelled exactly over `ℚ`.  The event list is the sequence of
`ProgressUpdate` values the run offers to the `Progress` channel
(`sendProgress`, `addLog`, `sendError`), in order. -/

/-- One element of the `steps` slice of `Install`. -/
structure StepSpec where
  name : String
  result : Option String
  weight : ℚ
  allowFailure : Bool
  deriving DecidableEq, Repr

/-- The `ProgressUpdate` struct.  `sendError` sends an update carrying only
the error, so its `Percent` field is the Go zero value `0`. -/
structure ProgressUpdate where
  step : String
  message : String
  percent : ℚ
  error : Option String
  deriving DecidableEq, Repr

/-- Go accumulation loop: `totalWeight` starts at 0.0 and each step adds its weight. -/
def totalWeight (steps : List StepSpec) : ℚ :=
  steps.foldl (fun a s => a + s.weight) 0

/-- Sum of the remaining step weights. -/
def weightSum (steps : List StepSpec) : ℚ :=
  (steps.map (fun s => s.weight)).sum

/-- The step loop of `Install`: emits the start event, runs the step, then
either logs-and-continues (tolerant failure), aborts with one error event
(fatal failure), or emits the completion event and continues.  Returns the
emitted events and the names of the steps whose action was invoked. -/
def installLoop (total : ℚ) : List StepSpec → ℚ → List ProgressUpdate × List String
  | [], _ => ([⟨"完成", "所有组件安装完成！", 1, none⟩], [])
  | s :: rest, curr =>
    let start : ProgressUpdate := ⟨s.name, "正在" ++ s.name ++ "...", curr / total, none⟩
    match s.result with
    | some e =>
      if s.allowFailure then
        let (evts, execd) := installLoop total rest (curr + s.weight)
        (start ::
          ⟨"日志", "⚠️ " ++ s.name ++ "失败，继续下一步: " ++ e, -1, none⟩ ::
          ⟨s.name, s.name ++ "未通过，继续安装", curr / total, none⟩ :: evts,
         s.name :: execd)
      else
        ([start,
          ⟨s.name, s.name ++ "失败: " ++ e, curr / total, none⟩,
          ⟨"", "", 0, some (s.name ++ "失败: " ++ e)⟩],
         [s.name])
    | none =>
      let (evts, execd) := installLoop total rest (curr + s.weight)
      (start :: ⟨s.name, s.name ++ "完成", curr / total, none⟩ :: evts,
       s.name :: execd)

/-- Function `Installer.Install` on a given step list. -/
def install (steps : List StepSpec) : List ProgressUpdate × List String :=
  installLoop (totalWeight steps) steps 0

/-- The error events of a run (`Error != nil`). -/
def errorEvents (evts : List ProgressUpdate) : List ProgressUpdate :=
  evts.filter (fun u => u.error.isSome)

/-- The `Percent` values of the non-log-only events (`Percent != -1`). -/
def shownPercents (evts : List ProgressUpdate) : List ℚ :=
  (evts.filter (fun u => u.percent ≠ -1)).map (fun u => u.percent)

/-- The `Percent` values of the non-log-only events that carry no error. -/
def cleanPercents (evts : List ProgressUpdate) : List ℚ :=
  (evts.filter (fun u => u.percent ≠ -1 && u.error.isNone)).map (fun u => u.percent)

/-- The step table of `Install` — names, weights and `allowFailure` flags
from the source — in a run where every action returns `nil`. -/
def defaultStepsAllOk : List StepSpec :=
  [⟨"检查系统环境", none, 5, false⟩,
   ⟨"检测 Node.js", none, 10, true⟩,
   ⟨"安装 Node.js", none, 20, false⟩,
   ⟨"检测 Git", none, 10, true⟩,
   ⟨"安装 Git", none, 20, false⟩,
   ⟨"安装 Claude Code", none, 20, false⟩,
   ⟨"验证安装", none, 5, false⟩]

/-! ## Mirror-fallback download loop
(`installNodeJSWindows` / `installGitWindows`, installer.go 315–342 / 582–609)

The `downloadFile` outcome of each URL is supplied as data: `none` = success,
`some e` = failure with error text `e`.  The loop sets `lastErr` on every
failure and `break`s on the first success — without resetting `lastErr`. -/

/-- The `for idx, url := range urls` loop: returns whether a download
succeeded and the final value of `lastErr`. -/
def mirrorLoop : List (Option String) → Option String → Bool × Option String
  | [], lastErr => (false, lastErr)
  | r :: rest, lastErr =>
    match r with
    | none => (true, lastErr)
    | some e => mirrorLoop rest (some e)

/-- The fetch phase of `installNodeJSWindows` / `installGitWindows`:
after the loop, `if lastErr != nil { return fmt.Errorf("所有下载源都失败: %v", lastErr) }`. -/
def fetchPhase (outcomes : List (Option String)) : Except String Unit :=
  let (_, lastErr) := mirrorLoop outcomes none
  match lastErr with
  | some e => .error ("所有下载源都失败: " ++ e)
  | none => .ok ()

/-- Whether the loop actually downloaded an artifact (some URL succeeded
before the loop ended). -/
def fetchDownloaded (outcomes : List (Option String)) : Bool :=
  (mirrorLoop outcomes none).1

/-! ## `configureK2APIWithOptions` (activation.go 1514–1751)

The filesystem and registry effects of the function are represented by the data
it writes: the `setx` key/value list, the disposable script text, the rc
file after the POSIX persistent branch, and the merged `.claude.json`
object.  Go panics (`60000 / 0`, `apiKey[:10]` on a short key) are `none`. -/

/-- Supported GOOS values relevant to the branch structure. -/
inductive OS where
  | windows
  | darwin
  | linux
  deriving DecidableEq, Repr

/-- Lines 1527–1529: `rpmInt, _ := strconv.Atoi(rpm); requestDelay := 60000 / rpmInt`.
The parse error is discarded; a zero quotient divisor is an integer
division-by-zero panic, modelled as `none`.  The Go `/` truncates toward zero
(`Int.tdiv`). -/
def requestDelayOf (rpm : String) : Option Int :=
  let rpmInt := (goAtoi rpm).1
  if rpmInt = 0 then none
  else some (Int.tdiv 60000 rpmInt)

/-- Characters fitting in the first `n` bytes of the UTF-8 encoding. -/
def takeBytesAux : Nat → List Char → List Char
  | _, [] => []
  | n, c :: cs =>
    if utf8Len c ≤ n then c :: takeBytesAux (n - utf8Len c) cs else []

/-- Go `apiKey[:10]`: the first 10 bytes; Go panics when the string is shorter. -/
def goTake10 (s : String) : Option String :=
  if goLen s < 10 then none
  else some (String.mk (takeBytesAux 10 s.data))

/-- The environment-variable map of the Windows persistent branch
(lines 1541–1546), written via `setx`.  Note: no entry touches
`ANTHROPIC_AUTH_TOKEN`. -/
def windowsSetxVars (apiKey : String) (requestDelay : Int) : List (String × String) :=
  [("ANTHROPIC_BASE_URL", "https://api.moonshot.cn/anthropic/"),
   ("ANTHROPIC_API_KEY", apiKey),
   ("CLAUDE_REQUEST_DELAY_MS", toString requestDelay),
   ("CLAUDE_MAX_CONCURRENT_REQUESTS", "1")]

/-- The batch-script text of the Windows temporary branch (lines 1575–1589);
`none` when `apiKey[:10]` panics. -/
def windowsTempScript (apiKey : String) (requestDelay : Int) : Option String :=
  match goTake10 apiKey with
  | none => none
  | some k10 => some
      ("@echo off\nREM Claude Code K2 Environment Variables Setup Script\n" ++
       "set \"ANTHROPIC_BASE_URL=https://api.moonshot.cn/anthropic/\"\n" ++
       "set \"ANTHROPIC_API_KEY=" ++ apiKey ++ "\"\n" ++
       "set \"CLAUDE_REQUEST_DELAY_MS=" ++ toString requestDelay ++ "\"\n" ++
       "set \"CLAUDE_MAX_CONCURRENT_REQUESTS=1\"\n" ++
       "set \"ANTHROPIC_AUTH_TOKEN=\"" ++ "\n\n" ++
       "echo K2 Environment Variables Set:\n" ++
       "echo   - API Key: " ++ k10 ++ "...\n" ++
       "echo   - Base URL: https://api.moonshot.cn/anthropic/\n" ++
       "echo   - Request Delay: " ++ toString requestDelay ++ " ms\necho.\n" ++
       "echo You can now run \x27claude\x27 command with K2 API\n")

/-- The sentinel marker comment checked before appending to an rc file. -/
def k2Marker : String := "# Claude Code K2 Configuration"

/-- The block appended to a shell rc file by the POSIX persistent branch
(lines 1625–1632). -/
def posixEnvConfig (apiKey : String) (requestDelay : Int) : String :=
  "\n" ++ k2Marker ++ "\n" ++
  "export ANTHROPIC_BASE_URL=\"https://api.moonshot.cn/anthropic/\"\n" ++
  "export ANTHROPIC_API_KEY=\"" ++ apiKey ++ "\"\n" ++
  "export CLAUDE_REQUEST_DELAY_MS=\"" ++ toString requestDelay ++ "\"\n" ++
  "export CLAUDE_MAX_CONCURRENT_REQUESTS=\"1\"\n" ++
  "unset ANTHROPIC_AUTH_TOKEN" ++ "\n"

/-- The per-rc-file processing of lines 1634–1667: a missing file is skipped
(never created), a file already containing the marker is left unchanged,
otherwise the block is appended. -/
def applyRcFile (envConfig : String) : Option String → Option String
  | none => none
  | some contents =>
    if strContains contents k2Marker then some contents
    else some (contents ++ envConfig)

/-- The shell-script text of the POSIX temporary branch (lines 1676–1690);
`none` when `apiKey[:10]` panics. -/
def posixTempScript (apiKey : String) (requestDelay : Int) : Option String :=
  match goTake10 apiKey with
  | none => none
  | some k10 => some
      ("#!/bin/bash\n# Claude Code K2 临时环境变量设置脚本\n" ++
       "export ANTHROPIC_BASE_URL=\"https://api.moonshot.cn/anthropic/\"\n" ++
       "export ANTHROPIC_API_KEY=\"" ++ apiKey ++ "\"\n" ++
       "export CLAUDE_REQUEST_DELAY_MS=\"" ++ toString requestDelay ++ "\"\n" ++
       "export CLAUDE_MAX_CONCURRENT_REQUESTS=\"1\"\n" ++
       "unset ANTHROPIC_AUTH_TOKEN" ++ "\n\n" ++
       "echo \"✅ K2环境变量已设置：\"\n" ++
       "echo \"  - API Key: " ++ k10 ++ "...\"\n" ++
       "echo \"  - Base URL: https://api.moonshot.cn/anthropic/\"\n" ++
       "echo \"  - 请求延迟: " ++ toString requestDelay ++ "毫秒\"\necho \"\"\n" ++
       "echo \"现在可以运行 \x27claude\x27 命令使用K2 API\"\n")

/-- A top-level JSON value, as far as the managed keys need. -/
inductive JVal where
  | s (v : String)
  | i (n : Int)
  | b (v : Bool)
  | raw (v : String)
  deriving DecidableEq, Repr

/-- Go map assignment `config[k] = v` observed through lookups: replace the
first binding of `k`, or append a new one. -/
def setKey : List (String × JVal) → String → JVal → List (String × JVal)
  | [], k, v => [(k, v)]
  | p :: rest, k, v =>
    if p.1 = k then (k, v) :: rest else p :: setKey rest k v

/-- Go map read `config[k]`. -/
def getVal : List (String × JVal) → String → Option JVal
  | [], _ => none
  | p :: rest, k => if k = p.1 then some p.2 else getVal rest k

/-- The read-merge-write of `.claude.json` (lines 1730–1735): the five
managed keys are set on the previously parsed object. -/
def mergeClaudeJson (config : List (String × JVal)) (apiKey : String)
    (requestDelay : Int) : List (String × JVal) :=
  setKey (setKey (setKey (setKey (setKey config
    "hasCompletedOnboarding" (.b true))
    "apiKey" (.s apiKey))
    "apiBaseUrl" (.s "https://api.moonshot.cn/anthropic/"))
    "requestDelayMs" (.i requestDelay))
    "maxConcurrentRequests" (.i 1)

/-- The observable outcome of one `configureK2APIWithOptions` call. -/
structure ConfigResult where
  skipped : Bool
  setxWrites : List (String × String)
  tempScriptContent : Option String
  rcFileAfter : Option String
  jsonConfig : List (String × JVal)
  deriving DecidableEq, Repr

/-- Function `configureK2APIWithOptions(apiKey, rpm, useSystemConfig)`.
`shellRc` is the contents of the single shell rc file the POSIX branch
selects (`none` = the file does not exist); `priorJson` is the parsed
pre-existing `.claude.json` object.  A `none` result is a Go panic. -/
def configureK2APIWithOptions (os : OS) (apiKey rpm : String)
    (useSystemConfig : Bool) (shellRc : Option String)
    (priorJson : List (String × JVal)) : Option ConfigResult :=
  if apiKey = "" then
    some ⟨true, [], none, shellRc, priorJson⟩
  else
    match requestDelayOf rpm with
    | none => none
    | some requestDelay =>
      let envPart : Option (List (String × String) × Option String × Option String) :=
        match os, useSystemConfig with
        | .windows, true =>
          some (windowsSetxVars apiKey requestDelay, none, shellRc)
        | .windows, false =>
          match windowsTempScript apiKey requestDelay with
          | none => none
          | some sc => some ([], some sc, shellRc)
        | _, true =>
          some ([], none, applyRcFile (posixEnvConfig apiKey requestDelay) shellRc)
        | _, false =>
          match posixTempScript apiKey requestDelay with
          | none => none
          | some sc => some ([], some sc, shellRc)
      match envPart with
      | none => none
      | some (setxWrites, script, rcAfter) =>
        some ⟨false, setxWrites, script, rcAfter,
          mergeClaudeJson priorJson apiKey requestDelay⟩

/-! ## Shared lemmas -/

/-- A list is a Boolean prefix of itself extended by any suffix. -/
theorem isPrefixOf_append_self (n suf : List Char) :
    n.isPrefixOf (n ++ suf) = true := by
  induction n with
  | nil => simp [List.isPrefixOf]
  | cons c cs ih => simp [List.isPrefixOf, ih]

/-- Lemma: `containsB` finds an occurrence placed anywhere inside an append. -/
theorem containsB_append_mid (pre n suf : List Char) :
    containsB n (pre ++ n ++ suf) = true := by
  induction pre with
  | nil =>
    cases n with
    | nil => cases suf <;> simp [containsB, List.isEmpty, List.isPrefixOf]
    | cons c cs =>
      simp only [List.nil_append, List.cons_append, containsB, Bool.or_eq_true]
      left
      exact isPrefixOf_append_self (c :: cs) suf
  | cons p ps ih =>
    simp only [List.cons_append, containsB, Bool.or_eq_true]
    right
    exact ih

/-- Lemma: `strContains` detects a needle written between two other strings. -/
theorem strContains_append_mid (pre mid suf : String) :
    strContains (pre ++ mid ++ suf) mid = true := by
  show containsB mid.data (pre ++ mid ++ suf).data = true
  rw [String.data_append, String.data_append]
  exact containsB_append_mid pre.data mid.data suf.data

/-- An occurrence in the right part of an append is an occurrence. -/
theorem containsB_append_right (a b n : List Char) (h : containsB n b = true) :
    containsB n (a ++ b) = true := by
  induction a with
  | nil => simpa
  | cons c cs ih =>
    simp only [List.cons_append, containsB, Bool.or_eq_true]
    right
    exact ih

/-- A needle is found at the very front. -/
theorem containsB_front (n rest : List Char) : containsB n (n ++ rest) = true := by
  simpa using containsB_append_mid [] n rest

/-- Looking a key up after `setKey`. -/
theorem getVal_setKey (m : List (String × JVal)) (k : String) (v : JVal)
    (k' : String) :
    getVal (setKey m k v) k' = if k' = k then some v else getVal m k' := by
  induction m with
  | nil => simp [setKey, getVal]
  | cons p rest ih =>
    by_cases hpk : p.1 = k
    · by_cases h : k' = k <;> simp [setKey, getVal, hpk, h]
    · by_cases h1 : k' = p.1
      · have h2 : ¬k' = k := fun hh => hpk (h1.symm.trans hh)
        simp [setKey, getVal, hpk, h1, h2]
      · simp [setKey, getVal, hpk, h1, ih]

/-- Any non-empty result of the generator loop passed `Validate`. -/
theorem generateAux_valid (rnd : Nat → Nat) :
    ∀ fuel k, generateAux rnd fuel k ≠ "" →
      Validate (generateAux rnd fuel k) = true := by
  intro fuel
  induction fuel with
  | zero => intro k h; simp [generateAux] at h
  | succ n ih =>
    intro k h
    simp only [generateAux] at h ⊢
    split_ifs at h ⊢ with h1 h2
    · exact h2
    · exact ih _ h
    · exact ih _ h

/-- C10: Every non-empty string returned by `generateValidCodeDynamic` —
and hence every code in the list returned by `GetSampleActivationCodes` —
is accepted by `Validate`, for every outcome of the internal randomness. -/
theorem C10_generated_codes_validate :
    (∀ rnd : Nat → Nat, generateValidCodeDynamic rnd ≠ "" →
      Validate (generateValidCodeDynamic rnd) = true) ∧
    (∀ r1 r2 r3 : Nat → Nat, ∀ c ∈ getSampleActivationCodes r1 r2 r3,
      Validate c = true) := by
  constructor
  · intro rnd h
    exact generateAux_valid rnd 1000 0 h
  · intro r1 r2 r3 c hc
    simp only [getSampleActivationCodes, List.mem_filter, decide_eq_true_eq,
      List.mem_cons, List.mem_singleton, List.not_mem_nil] at hc
    obtain ⟨hmem, hne⟩ := hc
    rcases hmem with h | h | h | h
    · subst h; exact generateAux_valid r1 1000 0 hne
    · subst h; exact generateAux_valid r2 1000 0 hne
    · subst h; exact generateAux_valid r3 1000 0 hne
    · exact absurd h not_false

/-- C10 witness: A concrete randomness oracle for which the generator
returns a (necessarily valid) code on its first attempt. -/
theorem C10_generated_codes_validate_witness :
    generateValidCodeDynamic (fun k => [3, 1, 0, 0, 0, 0, 0, 0, 0, 0, 2].getD k 0) ≠ "" ∧
    Validate (generateValidCodeDynamic
      (fun k => [3, 1, 0, 0, 0, 0, 0, 0, 0, 0, 2].getD k 0)) = true :=
  ⟨by decide, C10_generated_codes_validate.1
    (fun k => [3, 1, 0, 0, 0, 0, 0, 0, 0, 0, 2].getD k 0) (by decide)⟩

/-- C7: The POSIX persistent configure step is idempotent on every shell
rc file: a second application (even with a different key or delay) finds the
sentinel marker already present and appends nothing, and a missing rc file
is skipped without being created. -/
theorem C7_rc_file_idempotent (apiKey₁ apiKey₂ : String) (delay₁ delay₂ : Int)
    (rcFile : Option String) :
    applyRcFile (posixEnvConfig apiKey₂ delay₂)
        (applyRcFile (posixEnvConfig apiKey₁ delay₁) rcFile) =
      applyRcFile (posixEnvConfig apiKey₁ delay₁) rcFile ∧
    applyRcFile (posixEnvConfig apiKey₁ delay₁) none = none := by
  refine ⟨?_, rfl⟩
  cases rcFile with
  | none => rfl
  | some contents =>
    by_cases h : strContains contents k2Marker
    · simp [applyRcFile, h]
    · have happ : strContains (contents ++ posixEnvConfig apiKey₁ delay₁) k2Marker = true := by
        have := strContains_append_mid (contents ++ "\n") k2Marker
          ("\n" ++
           "export ANTHROPIC_BASE_URL=\"https://api.moonshot.cn/anthropic/\"\n" ++
           "export ANTHROPIC_API_KEY=\"" ++ apiKey₁ ++ "\"\n" ++
           "export CLAUDE_REQUEST_DELAY_MS=\"" ++ toString delay₁ ++ "\"\n" ++
           "export CLAUDE_MAX_CONCURRENT_REQUESTS=\"1\"\n" ++
           "unset ANTHROPIC_AUTH_TOKEN" ++ "\n")
        simpa [posixEnvConfig, String.append_assoc] using this
      simp [applyRcFile, h, happ]

/-- C6: The `.claude.json` read-merge-write sets exactly the five managed
keys and preserves every other pre-existing top-level key with its value. -/
theorem C6_json_merge_preserves_unknown_keys
    (prior : List (String × JVal)) (apiKey : String) (delay : Int) :
    (∀ k, k ∉ ["hasCompletedOnboarding", "apiKey", "apiBaseUrl",
        "requestDelayMs", "maxConcurrentRequests"] →
      getVal (mergeClaudeJson prior apiKey delay) k = getVal prior k) ∧
    getVal (mergeClaudeJson prior apiKey delay) "hasCompletedOnboarding" =
      some (.b true) ∧
    getVal (mergeClaudeJson prior apiKey delay) "apiKey" = some (.s apiKey) ∧
    getVal (mergeClaudeJson prior apiKey delay) "apiBaseUrl" =
      some (.s "https://api.moonshot.cn/anthropic/") ∧
    getVal (mergeClaudeJson prior apiKey delay) "requestDelayMs" =
      some (.i delay) ∧
    getVal (mergeClaudeJson prior apiKey delay) "maxConcurrentRequests" =
      some (.i 1) := by
  refine ⟨?_, ?_, ?_, ?_, ?_, ?_⟩
  · intro k hk
    simp only [List.mem_cons, List.not_mem_nil, or_false, not_or] at hk
    obtain ⟨h1, h2, h3, h4, h5⟩ := hk
    simp [mergeClaudeJson, getVal_setKey, h1, h2, h3, h4, h5]
  all_goals simp [mergeClaudeJson, getVal_setKey]

/-- C6 witness: A concrete pre-existing object with an unknown key
`"customSetting"` that survives the merge unchanged. -/
theorem C6_json_merge_preserves_unknown_keys_witness :
    ("customSetting" ∉ ["hasCompletedOnboarding", "apiKey", "apiBaseUrl",
        "requestDelayMs", "maxConcurrentRequests"]) ∧
    getVal (mergeClaudeJson [("customSetting", JVal.s "keep me"),
        ("apiKey", JVal.s "old")] "sk-new" 2000) "customSetting" =
      getVal [("customSetting", JVal.s "keep me"),
        ("apiKey", JVal.s "old")] "customSetting" :=
  ⟨by decide,
    (C6_json_merge_preserves_unknown_keys
      [("customSetting", JVal.s "keep me"), ("apiKey", JVal.s "old")]
      "sk-new" 2000).1 "customSetting" (by decide)⟩

/-- C3: [code_bug] The mirror-fallback loops of `installNodeJSWindows`
and `installGitWindows` never reset `lastErr` after a later mirror succeeds.
At outcomes (mirror 1 fails, mirror 2 succeeds) the loop downloads the
artifact and breaks, yet the phase still returns the aggregated
"所有下载源都失败" error, so installation aborts instead of proceeding.
Only a first-mirror success, or no prior failure, yields `ok`; when every
mirror fails the error does reference the last failure, as specified. -/
theorem C3_mirror_fallback_bug :
    fetchDownloaded [some "connection refused", none, some "timeout"] = true ∧
    fetchPhase [some "connection refused", none, some "timeout"] =
      .error ("所有下载源都失败: " ++ "connection refused") ∧
    fetchPhase [some "e1", some "e2", some "e3"] =
      .error ("所有下载源都失败: " ++ "e3") ∧
    fetchPhase [none, some "x", some "y"] = .ok () := by
  refine ⟨rfl, rfl, rfl, rfl⟩

/-- C4: [code_bug] `configureK2APIWithOptions` performs no validation of
the rpm string: the `strconv.Atoi` error is discarded and `60000 / rpmInt`
is evaluated immediately, so every rpm string parsing to zero — `"0"`
itself, or any string `Atoi` rejects — reaches the integer division by zero
(a Go runtime panic, modelled as `none`) instead of being rejected first. -/
theorem C4_rpm_zero_reaches_division :
    configureK2APIWithOptions .linux "sk-ant-api03-testkey" "0" true (some "") [] =
      none ∧
    configureK2APIWithOptions .windows "sk-ant-api03-testkey" "abc" true none [] =
      none ∧
    requestDelayOf "0" = none ∧
    requestDelayOf "abc" = none := by
  refine ⟨rfl, rfl, rfl, rfl⟩

/-- C5: For every rpm string parsing to a positive integer `r`, the
derived request delay written to the environment stores and to the JSON
config is exactly `60000 / r` under truncating integer division — in
particular 20000, 2000, 300, 120 and 12 for r = 3, 30, 200, 500, 5000. -/
theorem C5_request_delay_exact :
    (∀ (rpm : String) (r : Int), goAtoi rpm = (r, true) → 0 < r →
      requestDelayOf rpm = some (Int.tdiv 60000 r)) ∧
    (∀ (os : OS) (apiKey rpm : String) (r : Int) (shellRc : Option String)
        (prior : List (String × JVal)) (res : ConfigResult),
      goAtoi rpm = (r, true) → 0 < r → apiKey ≠ "" →
      configureK2APIWithOptions os apiKey rpm true shellRc prior = some res →
      getVal res.jsonConfig "requestDelayMs" = some (.i (Int.tdiv 60000 r)) ∧
      (os = .windows →
        ("CLAUDE_REQUEST_DELAY_MS", toString (Int.tdiv 60000 r)) ∈
          res.setxWrites)) ∧
    requestDelayOf "3" = some 20000 ∧
    requestDelayOf "30" = some 2000 ∧
    requestDelayOf "200" = some 300 ∧
    requestDelayOf "500" = some 120 ∧
    requestDelayOf "5000" = some 12 := by
  have hdelay : ∀ (rpm : String) (r : Int), goAtoi rpm = (r, true) → 0 < r →
      requestDelayOf rpm = some (Int.tdiv 60000 r) := by
    intro rpm r h hr
    simp [requestDelayOf, h, hr.ne']
  refine ⟨hdelay, ?_, rfl, rfl, rfl, rfl, rfl⟩
  intro os apiKey rpm r shellRc prior res hatoi hr hkey hcfg
  have hd := hdelay rpm r hatoi hr
  cases os <;>
    simp only [configureK2APIWithOptions, hkey, if_false, hd] at hcfg <;>
    cases hcfg <;>
    constructor <;>
    simp [mergeClaudeJson, getVal_setKey, windowsSetxVars]

/-- C5 witness: rpm `"30"` on the Windows persistent path yields delay
2000 in both stores. -/
theorem C5_request_delay_exact_witness :
    goAtoi "30" = (30, true) ∧ (0 : Int) < 30 ∧ "sk-ant-api03-testkey" ≠ "" ∧
    configureK2APIWithOptions .windows "sk-ant-api03-testkey" "30" true none [] =
      some ⟨false, windowsSetxVars "sk-ant-api03-testkey" 2000, none, none,
        mergeClaudeJson [] "sk-ant-api03-testkey" 2000⟩ ∧
    getVal (mergeClaudeJson [] "sk-ant-api03-testkey" 2000) "requestDelayMs" =
      some (.i (Int.tdiv 60000 30)) ∧
    ("CLAUDE_REQUEST_DELAY_MS", toString (Int.tdiv 60000 (30 : Int))) ∈
      windowsSetxVars "sk-ant-api03-testkey" 2000 :=
  ⟨by decide, by decide, by decide, by decide,
    (C5_request_delay_exact.2.1 .windows "sk-ant-api03-testkey" "30" 30 none []
      ⟨false, windowsSetxVars "sk-ant-api03-testkey" 2000, none, none,
        mergeClaudeJson [] "sk-ant-api03-testkey" 2000⟩
      (by decide) (by decide) (by decide) (by decide)).1,
    (C5_request_delay_exact.2.1 .windows "sk-ant-api03-testkey" "30" 30 none []
      ⟨false, windowsSetxVars "sk-ant-api03-testkey" 2000, none, none,
        mergeClaudeJson [] "sk-ant-api03-testkey" 2000⟩
      (by decide) (by decide) (by decide) (by decide)).2 rfl⟩

/-- C9: With `persistSystemWide = false` and a non-empty API key shorter
than 10 bytes, `configureK2APIWithOptions` does not return normally on any
OS: building the disposable script evaluates `apiKey[:10]`, which panics. -/
theorem C9_short_key_panics (os : OS) (apiKey rpm : String)
    (shellRc : Option String) (prior : List (String × JVal)) :
    apiKey ≠ "" → goLen apiKey < 10 →
    configureK2APIWithOptions os apiKey rpm false shellRc prior = none := by
  intro hk hlen
  have ht : goTake10 apiKey = none := by simp [goTake10, hlen]
  cases hdelay : requestDelayOf rpm <;> cases os <;>
    simp [configureK2APIWithOptions, hk, hdelay, windowsTempScript,
      posixTempScript, ht]

/-- C9 witness: The five-byte key `"short"` panics in temporary mode. -/
theorem C9_short_key_panics_witness :
    "short" ≠ "" ∧ goLen "short" < 10 ∧
    configureK2APIWithOptions .linux "short" "30" false (some "") [] = none :=
  ⟨by decide, by decide,
    C9_short_key_panics .linux "short" "30" (some "") [] (by decide) (by decide)⟩

/-- C8 counterexample: The claim fails at the Windows persistent store:
the `setx` branch writes `ANTHROPIC_API_KEY` but issues no write or clear of
`ANTHROPIC_AUTH_TOKEN` in that store. -/
theorem C8_counterexample :
    configureK2APIWithOptions .windows "sk-ant-api03-testkey" "30" true none [] =
      some ⟨false, windowsSetxVars "sk-ant-api03-testkey" 2000, none, none,
        mergeClaudeJson [] "sk-ant-api03-testkey" 2000⟩ ∧
    "ANTHROPIC_API_KEY" ∈
      (windowsSetxVars "sk-ant-api03-testkey" 2000).map Prod.fst ∧
    "ANTHROPIC_AUTH_TOKEN" ∉
      (windowsSetxVars "sk-ant-api03-testkey" 2000).map Prod.fst := by
  refine ⟨rfl, by decide, by decide⟩

/-- C8 amended: The POSIX shell rc block and both disposable temporary
scripts pair the API-key write with clearing `ANTHROPIC_AUTH_TOKEN`, but the
Windows per-user store write (`setx` branch) sets the API key without
touching `ANTHROPIC_AUTH_TOKEN`. -/
theorem C8_auth_token_clearing (apiKey : String) (delay : Int) :
    strContains (posixEnvConfig apiKey delay)
      "export ANTHROPIC_API_KEY=\"" = true ∧
    strContains (posixEnvConfig apiKey delay)
      "unset ANTHROPIC_AUTH_TOKEN" = true ∧
    ((windowsTempScript apiKey delay).all fun sc =>
      strContains sc "set \"ANTHROPIC_API_KEY=" &&
      strContains sc "set \"ANTHROPIC_AUTH_TOKEN=\"") = true ∧
    ((posixTempScript apiKey delay).all fun sc =>
      strContains sc "export ANTHROPIC_API_KEY=\"" &&
      strContains sc "unset ANTHROPIC_AUTH_TOKEN") = true ∧
    "ANTHROPIC_AUTH_TOKEN" ∉ (windowsSetxVars apiKey delay).map Prod.fst := by
  refine ⟨?_, ?_, ?_, ?_, by simp [windowsSetxVars]⟩
  · show containsB _ _ = true
    simp only [posixEnvConfig, k2Marker, String.data_append, List.append_assoc]
    repeat first
      | exact containsB_front _ _
      | apply containsB_append_right
  · show containsB _ _ = true
    simp only [posixEnvConfig, k2Marker, String.data_append, List.append_assoc]
    repeat first
      | exact containsB_front _ _
      | apply containsB_append_right
  · cases h10 : goTake10 apiKey with
    | none => simp [windowsTempScript, h10]
    | some k10 =>
      simp only [windowsTempScript, h10, Option.all_some, Bool.and_eq_true]
      constructor <;>
      · show containsB _ _ = true
        simp only [String.data_append, List.append_assoc]
        repeat first
          | exact containsB_front _ _
          | apply containsB_append_right
  · cases h10 : goTake10 apiKey with
    | none => simp [posixTempScript, h10]
    | some k10 =>
      simp only [posixTempScript, h10, Option.all_some, Bool.and_eq_true]
      constructor <;>
      · show containsB _ _ = true
        simp only [String.data_append, List.append_assoc]
        repeat first
          | exact containsB_front _ _
          | apply containsB_append_right

/-! ## Pipeline lemmas -/

/-- The Go accumulation loop computes the weight sum. -/
theorem totalWeight_eq (steps : List StepSpec) :
    totalWeight steps = weightSum steps := by
  have : ∀ (l : List StepSpec) (a : ℚ),
      l.foldl (fun x s => x + s.weight) a = a + weightSum l := by
    intro l
    induction l with
    | nil => intro a; simp [weightSum]
    | cons s rest ih => intro a; simp [weightSum, ih, add_assoc]
  simpa [totalWeight] using this steps 0

/-- A run in which every non-tolerant step succeeds emits no error event,
executes every step, and ends with the `Completed` event. -/
theorem installLoop_no_fatal (total : ℚ) :
    ∀ (steps : List StepSpec) (curr : ℚ),
      (∀ s ∈ steps, s.allowFailure = false → s.result = none) →
      errorEvents (installLoop total steps curr).1 = [] ∧
      (installLoop total steps curr).2 = steps.map (fun s => s.name) ∧
      (installLoop total steps curr).1.getLast? =
        some ⟨"完成", "所有组件安装完成！", 1, none⟩ := by
  intro steps
  induction steps with
  | nil => intro curr _; refine ⟨rfl, rfl, rfl⟩
  | cons s rest ih =>
    intro curr h
    have hrest : ∀ t ∈ rest, t.allowFailure = false → t.result = none :=
      fun t ht => h t (List.mem_cons_of_mem s ht)
    obtain ⟨ih1, ih2, ih3⟩ := ih (curr + s.weight) hrest
    have hne : (installLoop total rest (curr + s.weight)).1 ≠ [] := by
      intro hnil
      rw [hnil] at ih3
      exact Option.noConfusion ih3
    obtain ⟨e0, evts, hevts⟩ :
        ∃ e0 evts, (installLoop total rest (curr + s.weight)).1 = e0 :: evts := by
      cases hl : (installLoop total rest (curr + s.weight)).1 with
      | nil => exact absurd hl hne
      | cons e0 evts => exact ⟨e0, evts, rfl⟩
    have ih3' := ih3
    rw [hevts] at ih3'
    cases hres : s.result with
    | none =>
      refine ⟨?_, ?_, ?_⟩
      · simpa [installLoop, hres, errorEvents] using ih1
      · simpa [installLoop, hres] using ih2
      · simp only [installLoop, hres]
        rw [hevts]
        simpa [List.getLast?_cons_cons] using ih3'
    | some e =>
      have htol : s.allowFailure = true := by
        cases hal : s.allowFailure with
        | true => rfl
        | false =>
          have hcon := h s (List.mem_cons_self s rest) hal
          rw [hres] at hcon
          exact Option.noConfusion hcon
      refine ⟨?_, ?_, ?_⟩
      · simpa [installLoop, hres, htol, errorEvents] using ih1
      · simpa [installLoop, hres, htol] using ih2
      · simp only [installLoop, hres, htol, if_true]
        rw [hevts]
        simpa [List.getLast?_cons_cons] using ih3'

/-- Up to the first non-tolerant failing step: exactly one error event, it is
the last event, and the action of no later step runs. -/
theorem installLoop_first_fatal (total : ℚ) (s : StepSpec) (e : String)
    (post : List StepSpec) (hfail : s.allowFailure = false)
    (hres : s.result = some e) :
    ∀ (pre : List StepSpec) (curr : ℚ),
      (∀ t ∈ pre, t.allowFailure = false → t.result = none) →
      errorEvents (installLoop total (pre ++ s :: post) curr).1 =
        [⟨"", "", 0, some (s.name ++ "失败: " ++ e)⟩] ∧
      (installLoop total (pre ++ s :: post) curr).1.getLast? =
        some ⟨"", "", 0, some (s.name ++ "失败: " ++ e)⟩ ∧
      (installLoop total (pre ++ s :: post) curr).2 =
        pre.map (fun t => t.name) ++ [s.name] := by
  intro pre
  induction pre with
  | nil =>
    intro curr _
    refine ⟨?_, ?_, ?_⟩ <;>
      simp [installLoop, hres, hfail, errorEvents]
  | cons t rest ih =>
    intro curr h
    have hrest : ∀ u ∈ rest, u.allowFailure = false → u.result = none :=
      fun u hu => h u (List.mem_cons_of_mem t hu)
    obtain ⟨ih1, ih2, ih3⟩ := ih (curr + t.weight) hrest
    have hne : (installLoop total (rest ++ s :: post) (curr + t.weight)).1 ≠ [] := by
      intro hnil
      rw [hnil] at ih2
      exact Option.noConfusion ih2
    obtain ⟨e0, evts, hevts⟩ :
        ∃ e0 evts,
          (installLoop total (rest ++ s :: post) (curr + t.weight)).1 =
            e0 :: evts := by
      cases hl : (installLoop total (rest ++ s :: post) (curr + t.weight)).1 with
      | nil => exact absurd hl hne
      | cons e0 evts => exact ⟨e0, evts, rfl⟩
    have ih2' := ih2
    rw [hevts] at ih2'
    cases hrt : t.result with
    | none =>
      refine ⟨?_, ?_, ?_⟩
      · simpa [installLoop, hrt, errorEvents] using ih1
      · rw [List.cons_append]
        simp only [installLoop, hrt]
        rw [hevts]
        simpa [List.getLast?_cons_cons] using ih2'
      · simpa [installLoop, hrt] using ih3
    | some e' =>
      have htol : t.allowFailure = true := by
        cases hal : t.allowFailure with
        | true => rfl
        | false =>
          have hcon := h t (List.mem_cons_self t rest) hal
          rw [hrt] at hcon
          exact Option.noConfusion hcon
      refine ⟨?_, ?_, ?_⟩
      · simpa [installLoop, hrt, htol, errorEvents] using ih1
      · rw [List.cons_append]
        simp only [installLoop, hrt, htol, if_true]
        rw [hevts]
        simpa [List.getLast?_cons_cons] using ih2'
      · simpa [installLoop, hrt, htol] using ih3

/-- C1: A failure of a tolerant step never moves the run to the Failed
terminal state — no error event is emitted and the following steps still
execute — while the first failure of a non-tolerant step emits exactly one
error event, that error event is the terminal event, and no step after it
executes. -/
theorem C1_failure_policy :
    (∀ steps : List StepSpec,
      (∀ s ∈ steps, s.allowFailure = false → s.result = none) →
      errorEvents (install steps).1 = [] ∧
      (install steps).2 = steps.map (fun s => s.name) ∧
      (install steps).1.getLast? =
        some ⟨"完成", "所有组件安装完成！", 1, none⟩) ∧
    (∀ (pre post : List StepSpec) (s : StepSpec) (e : String),
      s.allowFailure = false → s.result = some e →
      (∀ t ∈ pre, t.allowFailure = false → t.result = none) →
      errorEvents (install (pre ++ s :: post)).1 =
        [⟨"", "", 0, some (s.name ++ "失败: " ++ e)⟩] ∧
      (install (pre ++ s :: post)).1.getLast? =
        some ⟨"", "", 0, some (s.name ++ "失败: " ++ e)⟩ ∧
      (install (pre ++ s :: post)).2 = pre.map (fun t => t.name) ++ [s.name]) := by
  constructor
  · intro steps h
    exact installLoop_no_fatal (totalWeight steps) steps 0 h
  · intro pre post s e hfail hres h
    exact installLoop_first_fatal (totalWeight (pre ++ s :: post)) s e post
      hfail hres pre 0 h

/-- C1 witness: A concrete four-step run: a tolerant detection step fails
and the pipeline continues; the non-tolerant install step then fails, its
error event is terminal, and the step after it never runs. -/
theorem C1_failure_policy_witness :
    ((⟨"安装 Node.js", some "下载失败", 20, false⟩ : StepSpec).allowFailure = false) ∧
    ((⟨"安装 Node.js", some "下载失败", 20, false⟩ : StepSpec).result = some "下载失败") ∧
    (∀ t ∈ [(⟨"检查系统环境", none, 5, false⟩ : StepSpec),
        ⟨"检测 Node.js", some "未找到 node", 10, true⟩],
      t.allowFailure = false → t.result = none) ∧
    errorEvents (install
        [⟨"检查系统环境", none, 5, false⟩,
         ⟨"检测 Node.js", some "未找到 node", 10, true⟩,
         ⟨"安装 Node.js", some "下载失败", 20, false⟩,
         ⟨"检测 Git", none, 10, true⟩]).1 =
      [⟨"", "", 0, some ("安装 Node.js" ++ "失败: " ++ "下载失败")⟩] ∧
    (install
        [⟨"检查系统环境", none, 5, false⟩,
         ⟨"检测 Node.js", some "未找到 node", 10, true⟩,
         ⟨"安装 Node.js", some "下载失败", 20, false⟩,
         ⟨"检测 Git", none, 10, true⟩]).2 =
      ["检查系统环境", "检测 Node.js", "安装 Node.js"] :=
  ⟨rfl, rfl, by decide,
    (C1_failure_policy.2
      [⟨"检查系统环境", none, 5, false⟩, ⟨"检测 Node.js", some "未找到 node", 10, true⟩]
      [⟨"检测 Git", none, 10, true⟩]
      ⟨"安装 Node.js", some "下载失败", 20, false⟩ "下载失败"
      rfl rfl (by decide)).1,
    (C1_failure_policy.2
      [⟨"检查系统环境", none, 5, false⟩, ⟨"检测 Node.js", some "未找到 node", 10, true⟩]
      [⟨"检测 Git", none, 10, true⟩]
      ⟨"安装 Node.js", some "下载失败", 20, false⟩ "下载失败"
      rfl rfl (by decide)).2.2⟩

/-- A chain bounded below on the left can start lower. -/
theorem chain_le_of_le {y x : ℚ} {l : List ℚ}
    (h : List.Chain (· ≤ ·) x l) (hxy : y ≤ x) :
    List.Chain (· ≤ ·) y l := by
  cases h with
  | nil => exact .nil
  | cons hab h' => exact .cons (le_trans hxy hab) h'

/-- Positive weights have a nonnegative sum. -/
theorem weightSum_nonneg (steps : List StepSpec)
    (hw : ∀ s ∈ steps, 0 < s.weight) : 0 ≤ weightSum steps := by
  induction steps with
  | nil => simp [weightSum]
  | cons s rest ih =>
    have h1 := hw s (List.mem_cons_self s rest)
    have h2 := ih fun t ht => hw t (List.mem_cons_of_mem s ht)
    simp only [weightSum, List.map_cons, List.sum_cons]
    have : (0 : ℚ) ≤ weightSum rest := h2
    simp only [weightSum] at this
    linarith

/-- Along any run, the percent values of the error-free non-log-only events
form a `≤`-chain starting at the current fraction. -/
theorem cleanPercents_chain (total : ℚ) (hpos : 0 < total) :
    ∀ (steps : List StepSpec) (curr : ℚ),
      (∀ s ∈ steps, 0 < s.weight) → 0 ≤ curr →
      curr + weightSum steps = total →
      List.Chain (· ≤ ·) (curr / total)
        (cleanPercents (installLoop total steps curr).1) := by
  intro steps
  induction steps with
  | nil =>
    intro curr hw hc hsum
    have hct : curr = total := by simpa [weightSum] using hsum
    subst hct
    have h1 : ((1 : ℚ)) ≠ -1 := by norm_num
    simp [installLoop, cleanPercents, h1, div_self hpos.ne']
  | cons s rest ih =>
    intro curr hw hc hsum
    have hsw : 0 < s.weight := hw s (List.mem_cons_self s rest)
    have hwrest : ∀ t ∈ rest, 0 < t.weight :=
      fun t ht => hw t (List.mem_cons_of_mem s ht)
    have hc' : 0 ≤ curr + s.weight := by linarith
    have hsum' : (curr + s.weight) + weightSum rest = total := by
      simp only [weightSum, List.map_cons, List.sum_cons] at hsum
      simp only [weightSum]
      linarith
    have hstep : curr / total ≤ (curr + s.weight) / total := by
      gcongr
      linarith
    have hnn : curr / total ≠ -1 := by
      have h0 : 0 ≤ curr / total := div_nonneg hc hpos.le
      intro heq
      rw [heq] at h0
      linarith
    have hnnb : decide (curr / total ≠ -1) = true := decide_eq_true hnn
    cases hres : s.result with
    | none =>
      have ihc := ih (curr + s.weight) hwrest hc' hsum'
      simp only [installLoop, hres, cleanPercents, List.filter, hnnb,
        Option.isNone_none, Bool.and_true, List.map]
      exact .cons le_rfl (.cons le_rfl (chain_le_of_le ihc hstep))
    | some e =>
      cases htol : s.allowFailure with
      | false =>
        simp only [installLoop, hres, htol, Bool.false_eq_true, if_false,
          cleanPercents, List.filter, hnnb, Option.isNone_none,
          Option.isNone_some, Bool.and_true, Bool.and_false, List.map]
        exact List.Chain.cons le_rfl (List.Chain.cons le_rfl List.Chain.nil)
      | true =>
        have ihc := ih (curr + s.weight) hwrest hc' hsum'
        have hm1 : decide ((-1 : ℚ) ≠ -1) = false := by decide
        simp only [installLoop, hres, htol, if_true, cleanPercents, List.filter,
          hnnb, hm1, Option.isNone_none, Bool.and_true, Bool.false_and, List.map]
        exact .cons le_rfl (.cons le_rfl (chain_le_of_le ihc hstep))

/-- A `≤`-chain with an external head is a `≤`-chain on its own. -/
theorem chain'_of_chain {x : ℚ} {l : List ℚ}
    (h : List.Chain (· ≤ ·) x l) : List.Chain' (· ≤ ·) l := by
  cases l with
  | nil => simp
  | cons b t =>
    cases h with
    | cons hab h' => exact h'

/-- A nonempty list of positive weights has a positive total. -/
theorem totalWeight_pos (steps : List StepSpec) (hne : steps ≠ [])
    (hw : ∀ s ∈ steps, 0 < s.weight) : 0 < totalWeight steps := by
  cases steps with
  | nil => exact absurd rfl hne
  | cons s rest =>
    rw [totalWeight_eq]
    have h1 := hw s (List.mem_cons_self s rest)
    have h2 := weightSum_nonneg rest fun t ht => hw t (List.mem_cons_of_mem s ht)
    simp only [weightSum, List.map_cons, List.sum_cons]
    simp only [weightSum] at h2
    linarith

/-- C2 counterexample: The claim as stated fails: in a run whose second
step (non-tolerant, after a completed positive-weight step) fails, the
terminal error event carries `Percent` 0 — the Go zero value set by
`sendError` — which is a non-log-only value (`≠ -1`) below the fractions
already shown, so the `Percent` values of the non-log-only events of that
run are not monotonically non-decreasing. -/
theorem C2_counterexample :
    ¬ List.Chain' (· ≤ ·) (shownPercents (install
      [⟨"检查系统环境", none, 5, false⟩,
       ⟨"安装 Node.js", some "下载失败", 20, false⟩]).1) := by
  have h : shownPercents (install
      [⟨"检查系统环境", none, 5, false⟩,
       ⟨"安装 Node.js", some "下载失败", 20, false⟩]).1 =
      [0, 0, 1 / 5, 1 / 5, 0] := by
    simp only [install, installLoop, totalWeight, shownPercents, List.filter,
      List.map, List.foldl]
    norm_num
  rw [h]
  simp only [List.chain'_cons, List.chain'_singleton, and_true, not_and]
  intro h1 h2 h3
  norm_num

/-- C2 amended: Among the non-log-only events that carry no error
(which excludes only the terminal error event of a failed run, whose
`Percent` is the zero value 0), the `Percent` values are monotonically
non-decreasing for every sequence of positive step weights; and when every
step completes, the terminal event carries `Percent = 1.0` exactly, the
per-step increments `weight/totalWeight` summing to 1 exactly. -/
theorem C2_progress_monotone :
    (∀ steps : List StepSpec, (∀ s ∈ steps, 0 < s.weight) →
      List.Chain' (· ≤ ·) (cleanPercents (install steps).1)) ∧
    (∀ steps : List StepSpec, (∀ s ∈ steps, 0 < s.weight) →
      (∀ s ∈ steps, s.allowFailure = false → s.result = none) →
      (install steps).1.getLast? =
        some ⟨"完成", "所有组件安装完成！", 1, none⟩ ∧
      (steps ≠ [] → weightSum steps / totalWeight steps = 1)) := by
  constructor
  · intro steps hw
    cases steps with
    | nil =>
      have h1 : ((1 : ℚ)) ≠ -1 := by norm_num
      simp [install, installLoop, cleanPercents, h1]
    | cons s rest =>
      have hpos : 0 < totalWeight (s :: rest) :=
        totalWeight_pos (s :: rest) (by simp) hw
      have hchain := cleanPercents_chain (totalWeight (s :: rest)) hpos
        (s :: rest) 0 hw le_rfl (by rw [totalWeight_eq]; ring)
      exact chain'_of_chain hchain
  · intro steps hw hok
    refine ⟨(installLoop_no_fatal (totalWeight steps) steps 0 hok).2.2, ?_⟩
    intro hne
    have hpos := totalWeight_pos steps hne hw
    rw [totalWeight_eq] at hpos ⊢
    exact div_self hpos.ne'

/-- C2 witness: The real seven-step table, all steps succeeding:
monotone clean percents, terminal `Percent = 1`, increments summing to 1. -/
theorem C2_progress_monotone_witness :
    (∀ s ∈ defaultStepsAllOk, 0 < s.weight) ∧
    (∀ s ∈ defaultStepsAllOk, s.allowFailure = false → s.result = none) ∧
    defaultStepsAllOk ≠ [] ∧
    List.Chain' (· ≤ ·) (cleanPercents (install defaultStepsAllOk).1) ∧
    (install defaultStepsAllOk).1.getLast? =
      some ⟨"完成", "所有组件安装完成！", 1, none⟩ ∧
    weightSum defaultStepsAllOk / totalWeight defaultStepsAllOk = 1 :=
  ⟨by decide, by decide, by decide,
    C2_progress_monotone.1 defaultStepsAllOk (by decide),
    (C2_progress_monotone.2 defaultStepsAllOk (by decide) (by decide)).1,
    (C2_progress_monotone.2 defaultStepsAllOk (by decide) (by decide)).2
      (by decide)⟩

end K2
